import Mathlib

/-
Verification of the audio-engine design of the `ase-2024` repository.

The repository ships a thin UI glue layer (`src/index.js`) that drives a
Rust/WASM audio engine (`./pkg`, not part of the shown source).  The UI
layer is embedded directly from `src/index.js`; the engine components
(Parameter Store, Signal Graph, Playback Handle, Engine/Scheduler) are
modelled from the design document, as the engine source is not present.

All sample values are rationals (ℚ); machine numbers carry no exactness
requirements in the design, so exact arithmetic is the faithful shallow
embedding.
-/

namespace ASE2024

/-! ## UI layer, embedded from `src/index.js`

The loaded module keeps one mutable binding `let handle = null` and wires
three DOM handlers.  We model the mutable binding as `UIState.handle`
(an `Option` of an opaque handle identifier) and each handler as a pure
function from the state to the new state together with the list of calls
the handler issues into the Rust module.  `nextId` models the engine
producing a fresh handle object on every `play()` call. -/

/-- A call from the UI into the Rust module, as issued by the handlers in
`src/index.js`: `rust_module.play()`, `handle.free()`, or a
parameter-change signal `set(name, value)`. -/
inductive EngineCall where
  | play (newId : Nat)
  | free (id : Nat)
  | setParam (id : Nat) (name : String) (value : ℚ)
  deriving DecidableEq, Repr

/-- The state of the UI module scope: the stored `handle` variable
(`null` ↦ `none`) and the id the engine will give the next handle. -/
structure UIState where
  handle : Option Nat
  nextId : Nat
  deriving DecidableEq, Repr

/-- Embedded from `src/index.js` lines 4–6: the play-button click handler
runs `handle = rust_module.play()` unconditionally — it overwrites the
stored handle with the fresh one and issues no other call. -/
def onPlayClick (s : UIState) : UIState × List EngineCall :=
  ({ handle := some s.nextId, nextId := s.nextId + 1 }, [EngineCall.play s.nextId])

/-- Embedded from `src/index.js` lines 8–13: the stop-button click handler
runs `if (handle !== null) { handle.free(); handle = null }`. -/
def onStopClick (s : UIState) : UIState × List EngineCall :=
  match s.handle with
  | some h => ({ s with handle := none }, [EngineCall.free h])
  | none => (s, [])

/-- Embedded from `src/index.js` lines 14–19: the delay-slider change
handler checks `if (handle !== null)` and then does nothing — the body is
only the comment `// TODO: Connect this to your filter.`  No call is
issued into the module in either branch. -/
def onDelayChange (s : UIState) (_v : ℚ) : UIState × List EngineCall :=
  match s.handle with
  | some _ => (s, [])
  | none => (s, [])

/-! ## Engine/Scheduler lifecycle (spec §4.4) -/

/-- Modelled from the spec (§4.4, Engine/Scheduler, not present in the
shown source): the lifecycle states of the real-time callback for one
handle. -/
inductive EngineState where
  | Idle
  | Running
  | Stopping
  deriving DecidableEq, Repr

/-- Modelled from the spec (§4.4): the events that can drive the
lifecycle: `play()`/Handle creation, `free()`, and the output sink
confirming that the callback is fully deregistered. -/
inductive EngineEvent where
  | playEv
  | freeEv
  | sinkConfirm
  deriving DecidableEq, Repr

/-- Modelled from the spec (§4.4, not present in the shown source): the
per-handle lifecycle step function.  `none` means the event causes no
transition in that state. -/
def engineStep : EngineState → EngineEvent → Option EngineState
  | EngineState.Idle, EngineEvent.playEv => some EngineState.Running
  | EngineState.Running, EngineEvent.freeEv => some EngineState.Stopping
  | EngineState.Stopping, EngineEvent.sinkConfirm => some EngineState.Idle
  | _, _ => none

/-- Running the lifecycle over a list of events from a start state,
skipping events that cause no transition. -/
def engineRun (s : EngineState) : List EngineEvent → EngineState
  | [] => s
  | e :: es =>
    match engineStep s e with
    | some t => engineRun t es
    | none => engineRun s es

/-! ## Parameter Store, functional view (spec §4.1)

The concurrency-level refinement (double-buffered words with an atomic
publish flag) is developed further below; this is the atomic functional
contract the control and audio contexts observe. -/

/-- Modelled from the spec (§3, §4.1, Parameter Store, not present in the
shown source): the store holds the current value of each parameter of the
fixed, small parameter set — here the single live parameter
`delay_seconds`, valid range `[0, maxDelaySeconds]`. -/
structure ParamStore where
  maxDelaySeconds : ℚ
  delaySeconds : ℚ
  deriving DecidableEq, Repr

/-- Modelled from the spec (§4.1): `set(name, value)` is callable from any
thread and never rejects: an out-of-range value is clamped to the nearest
range boundary.  An unknown name is ignored.  The function is total: no
error value exists in its type. -/
def ParamStore.set (st : ParamStore) (name : String) (value : ℚ) : ParamStore :=
  if name = "delay" then
    { st with delaySeconds := min st.maxDelaySeconds (max 0 value) }
  else
    st

/-- Modelled from the spec (§4.1): `get(name)` returns the most recently
committed value; unknown names read as `0`. -/
def ParamStore.get (st : ParamStore) (name : String) : ℚ :=
  if name = "delay" then st.delaySeconds else 0

/-- A store is well-formed when its stored delay is inside the valid
range. -/
def ParamStore.WF (st : ParamStore) : Prop :=
  0 ≤ st.delaySeconds ∧ st.delaySeconds ≤ st.maxDelaySeconds

/-! ## Signal Graph stages (spec §4.2) -/

/-- Modelled from the spec (§4.2, Oscillator stage, not present in the
shown source): a periodic waveform generator.  The phase accumulator is
kept in the bounded range `[0, 1)` (one period normalised to `1`), wrapped
modulo one period on every tick.  The concrete wave shape is left open by
the design; we use the normalised sawtooth `2·phase − 1`. -/
structure Oscillator where
  freq : ℚ
  sampleRate : ℚ
  phase : ℚ
  deriving DecidableEq, Repr

/-- The waveform evaluated at a phase in `[0, 1)`: normalised sawtooth. -/
def waveform (phase : ℚ) : ℚ := 2 * phase - 1

/-- Modelled from the spec (§4.2): one oscillator tick emits the waveform
at the current phase, then advances the phase by `freq / sampleRate` and
wraps it into `[0, 1)` (`Int.fract`), so no unbounded drift accumulates. -/
def Oscillator.tick (o : Oscillator) : ℚ × Oscillator :=
  (waveform o.phase, { o with phase := Int.fract (o.phase + o.freq / o.sampleRate) })

/-- Modelled from the spec (§4.2, `reset()`): phase starts at `0`. -/
def Oscillator.reset (freq sampleRate : ℚ) : Oscillator :=
  { freq := freq, sampleRate := sampleRate, phase := 0 }

/-- The oscillator state after `t` ticks from a start state. -/
def oscState (o : Oscillator) : Nat → Oscillator
  | 0 => o
  | t + 1 => (oscState o t).tick.2

/-- The oscillator output at tick `t` (the `t`-th produced sample). -/
def oscOut (o : Oscillator) (t : Nat) : ℚ :=
  ((oscState o t).tick).1

/-- Modelled from the spec (§4.2, `process_block(n)`): advance the
oscillator by `n` samples, returning the produced block and the new
state. -/
def Oscillator.processBlock (o : Oscillator) (n : Nat) : List ℚ × Oscillator :=
  (List.ofFn (fun i : Fin n => oscOut o i), oscState o n)

/-- The oscillator state after a whole sequence of `process_block` calls
with the given block sizes. -/
def Oscillator.processBlocksState (o : Oscillator) : List Nat → Oscillator
  | [] => o
  | n :: ns => Oscillator.processBlocksState (oscState o n) ns

/-- Modelled from the spec (§4.2, Delay line, not present in the shown
source): a circular buffer of `size` slots (sized to
`max_delay_seconds × sample_rate`).  The buffer contents are modelled as a
total function `Nat → ℚ`; only indices below `size` are ever read or
written. -/
structure DelayLine where
  size : Nat
  buf : Nat → ℚ
  widx : Nat

/-- Modelled from the spec (§4.2, `reset()`): buffer zeroed, write cursor
at the start. -/
def DelayLine.reset (size : Nat) : DelayLine :=
  { size := size, buf := fun _ => 0, widx := 0 }

/-- Modelled from the spec (§4.2): one delay-line tick with the current
delay offset `D` (in samples) and input sample `x`: the current input is
written at the write cursor, the output is read at the cursor offset by
`D` positions backwards (circularly), and the cursor advances.  Read
policy (a documented design choice in §4.2): hard-switch, no
interpolation, with the write preceding the read so that offset `0` reads
the sample written this very tick — as §8 requires, `delay = 0` is the
identity. -/
def DelayLine.tick (d : DelayLine) (D : Nat) (x : ℚ) : ℚ × DelayLine :=
  let buf2 : Nat → ℚ := fun j => if j = d.widx then x else d.buf j
  let out := buf2 ((d.widx + (d.size - D)) % d.size)
  (out, { d with buf := buf2, widx := (d.widx + 1) % d.size })

/-- The delay-line state after feeding the first `t` samples of the input
stream `u` into a freshly reset buffer of `size` slots.  The state does
not depend on the read offset. -/
def delayState (size : Nat) (u : Nat → ℚ) : Nat → DelayLine
  | 0 => DelayLine.reset size
  | t + 1 => ((delayState size u t).tick 0 (u t)).2

/-- The delay-line output at tick `t`, reading at constant offset `D`. -/
def delayOut (size D : Nat) (u : Nat → ℚ) (t : Nat) : ℚ :=
  ((delayState size u t).tick D (u t)).1

/-- Modelled from the spec (§4.2, Output gain stage, not present in the
shown source): scales the sample by the gain and clamps it into the
canonical sample range `[-1, 1]`. -/
def outputGain (g x : ℚ) : ℚ := min 1 (max (-1) (g * x))

/-! ## Playback Handle (spec §3, §4.3) -/

/-- Modelled from the spec (§3): the lifecycle state of a Handle. -/
inductive HandleState where
  | Active
  | Freed
  deriving DecidableEq, Repr

/-- Modelled from the spec (§2, §4.3): the fixed graph configuration a
Handle is created with.  The stage order (oscillator → delay → output
gain) is fixed; only parameter values change at runtime. -/
structure GraphConfig where
  sampleRate : Nat
  freq : ℚ
  maxDelaySeconds : ℚ
  gain : ℚ
  deriving DecidableEq, Repr

/-- The delay ring buffer is sized to `max_delay_seconds × sample_rate`
(plus the slot being written, so that the maximal offset is readable
under the write-then-read policy). -/
def GraphConfig.bufSize (cfg : GraphConfig) : Nat :=
  (⌊cfg.maxDelaySeconds * (cfg.sampleRate : ℚ)⌋).toNat + 1

/-- The oscillator stage's output stream for a configuration, from the
reset state (`phase = 0`). -/
def GraphConfig.oscStream (cfg : GraphConfig) : Nat → ℚ :=
  oscOut (Oscillator.reset cfg.freq (cfg.sampleRate : ℚ))

/-- Modelled from the spec (§3, §4.3, Playback Handle, not present in the
shown source): one playback session, owning its Signal Graph configuration
and its Parameter Store.  `registered` models the audio-callback
registration with the output sink. -/
structure Handle where
  cfg : GraphConfig
  hstate : HandleState
  registered : Bool
  params : ParamStore
  deriving DecidableEq, Repr

/-- Modelled from the spec (§4.3, `create`): allocates the Signal Graph
and Parameter Store (delay initially `0`), registers the callback, and
returns an `Active` handle. -/
def Handle.create (cfg : GraphConfig) : Handle :=
  { cfg := cfg, hstate := HandleState.Active, registered := true,
    params := { maxDelaySeconds := cfg.maxDelaySeconds, delaySeconds := 0 } }

/-- Modelled from the spec (§3, §4.3, `free`): on an `Active` handle it
deregisters the callback and transitions to `Freed`; on a `Freed` handle
it is a guarded no-op.  The function is total: no panic exists in its
type. -/
def Handle.free (h : Handle) : Handle :=
  match h.hstate with
  | HandleState.Active => { h with hstate := HandleState.Freed, registered := false }
  | HandleState.Freed => h

/-- Modelled from the spec (§4.3): a mutating operation on a handle —
forwarding a parameter change into its store.  On a `Freed` handle it is
a no-op, never a crash. -/
def Handle.setParam (h : Handle) (name : String) (v : ℚ) : Handle :=
  match h.hstate with
  | HandleState.Active => { h with params := h.params.set name v }
  | HandleState.Freed => h

/-- The current delay offset in samples, derived from the stored
`delay_seconds` parameter. -/
def Handle.delaySamples (h : Handle) : Nat :=
  (⌊h.params.delaySeconds * (h.cfg.sampleRate : ℚ)⌋).toNat

/-- The handle's output sample at tick `t`: oscillator → delay line at the
current offset → output gain. -/
def Handle.outAt (h : Handle) (t : Nat) : ℚ :=
  outputGain h.cfg.gain (delayOut h.cfg.bufSize h.delaySamples h.cfg.oscStream t)

/-! ## Engine-level handle table (spec §2, §4.4) -/

/-- Modelled from the spec (§2, Engine/Scheduler, not present in the shown
source): the engine's table of allocated handles; `play()` allocates a
fresh slot. -/
structure System where
  handles : Nat → Option Handle
  nextId : Nat

/-- The engine before any `play()` call. -/
def System.empty : System :=
  { handles := fun _ => none, nextId := 0 }

/-- Modelled from the spec (§2): `play()` allocates a fresh Signal Graph
and Parameter Store, wraps them in a new Handle and returns its id. -/
def System.play (sys : System) (cfg : GraphConfig) : Nat × System :=
  (sys.nextId,
   { handles := fun i => if i = sys.nextId then some (Handle.create cfg) else sys.handles i,
     nextId := sys.nextId + 1 })

/-- A parameter change addressed at one handle: only that handle's store
is touched. -/
def System.setParam (sys : System) (id : Nat) (name : String) (v : ℚ) : System :=
  { sys with
    handles := fun i =>
      if i = id then (sys.handles i).map (fun h => h.setParam name v)
      else sys.handles i }

/-- The output sample of a given handle at tick `t` (`none` if the id is
unallocated). -/
def System.outputAt (sys : System) (id t : Nat) : Option ℚ :=
  (sys.handles id).map (fun h => h.outAt t)

/-! ## End-to-end configuration of spec §8

Sample rate 44100, block size 512, `delay_seconds = 0.5`, so the delay
offset is `22050` samples. -/

/-- The §8 end-to-end configuration: sample rate `44100`, delay range up
to one second, unit gain. -/
def e2eConfig : GraphConfig :=
  { sampleRate := 44100, freq := 440, maxDelaySeconds := 1, gain := 1 }

/-- The §8 handle: created with `e2eConfig`, then `delay_seconds` set to
`0.5` through the Parameter Store. -/
def e2eHandle : Handle :=
  (Handle.create e2eConfig).setParam "delay" (1 / 2)

/-- Sample `i` of output block `b` of the §8 run, with block size `512`:
the graph's output sample at tick `b · 512 + i`. -/
def e2eBlockSample (b i : Nat) : ℚ :=
  e2eHandle.outAt (b * 512 + i)

/-- The Delay stage's input signal in the §8 run (the oscillator stage's
output stream). -/
def e2eDelayIn (t : Nat) : ℚ :=
  e2eConfig.oscStream t

/-! ## Lock-free parameter handoff (spec §4.1, §5)

The design note (§9) calls for a double-buffered value with an atomic
publish flag.  We model the raw 64-bit encoding of the numeric value as
two 32-bit words written in two separate steps (so a torn read is
expressible), two word-pair buffers, and a single atomic flag selecting
the committed buffer.  One `set` execution (three atomic sub-steps:
write low word, write high word, flip the flag) is interleaved with one
`get` execution (three atomic sub-steps: latch the flag, read the low
word, read the high word); every interleaving of the six sub-steps is
examined. -/

/-- The two words of the 64-bit raw encoding of a parameter value. -/
def wordsOf (v : Nat) : Nat × Nat := (v % 2 ^ 32, v / 2 ^ 32)

/-- Reassembling a value from its two words. -/
def decodeWords (w : Nat × Nat) : Nat := w.1 + 2 ^ 32 * w.2

/-- Modelled from the spec (§4.1, §9, not present in the shown source):
the per-parameter slot of the lock-free store: two word-pair buffers and
the atomic publish flag naming the committed one. -/
structure Slot where
  buf : Bool → Nat × Nat
  cur : Bool

/-- The currently committed value of a slot. -/
def Slot.committed (s : Slot) : Nat := decodeWords (s.buf s.cur)

/-- The joint state of the slot, the writer (control context) and the
reader (audio context).  `wpc`/`rpc` are the next sub-step of each side
(`3` = finished); `rbuf` and `rlo` are the reader's private registers;
`res` is the reader's result; `latched` is a ghost record of the
committed value at the instant the reader latched the flag. -/
structure HandoffState where
  slot : Slot
  wpc : Nat
  rpc : Nat
  rbuf : Bool
  rlo : Nat
  res : Option Nat
  latched : Option Nat

/-- One atomic sub-step of the writer executing `set(v)`: write the low
word of the back (non-committed) buffer, write its high word, then
atomically flip the publish flag. -/
def writerStep (v : Nat) (s : HandoffState) : HandoffState :=
  match s.wpc with
  | 0 => { s with
      slot := { s.slot with
        buf := fun b => if b = !s.slot.cur then (v % 2 ^ 32, (s.slot.buf b).2)
                        else s.slot.buf b },
      wpc := 1 }
  | 1 => { s with
      slot := { s.slot with
        buf := fun b => if b = !s.slot.cur then ((s.slot.buf b).1, v / 2 ^ 32)
                        else s.slot.buf b },
      wpc := 2 }
  | 2 => { s with slot := { s.slot with cur := !s.slot.cur }, wpc := 3 }
  | _ => s

/-- One atomic sub-step of the reader executing `get`: latch the publish
flag, read the low word of the latched buffer, read its high word and
assemble the result. -/
def readerStep (s : HandoffState) : HandoffState :=
  match s.rpc with
  | 0 => { s with rbuf := s.slot.cur, latched := some s.slot.committed, rpc := 1 }
  | 1 => { s with rlo := (s.slot.buf s.rbuf).1, rpc := 2 }
  | 2 => { s with res := some (s.rlo + 2 ^ 32 * (s.slot.buf s.rbuf).2), rpc := 3 }
  | _ => s

/-- The initial joint state: value `v0` committed in buffer `false`, the
back buffer stale (zeroed), both sides about to start. -/
def handoffInit (v0 : Nat) : HandoffState :=
  { slot := { buf := fun b => if b then (0, 0) else wordsOf v0, cur := false },
    wpc := 0, rpc := 0, rbuf := false, rlo := 0, res := none, latched := none }

/-- Executing an interleaving: `true` entries run the next writer
sub-step, `false` entries the next reader sub-step. -/
def handoffExec (v : Nat) : HandoffState → List Bool → HandoffState
  | s, [] => s
  | s, step :: il => handoffExec v (if step then writerStep v s else readerStep s) il

/-- The joint state after one full `set(v)` interleaved with one full
`get`, under interleaving `il`, starting from committed value `v0`. -/
def handoffFinal (v0 v : Nat) (il : List Bool) : HandoffState :=
  handoffExec v (handoffInit v0) il

/-! ## Delay-line invariants and characterisation -/

/-- Two ticks strictly less than `size` apart land on different buffer
slots. -/
theorem mod_ne_of_lt_of_sub_lt (size k t : Nat) (hk : k < t) (hlt : t - k < size) :
    k % size ≠ t % size := by
  intro h
  have hdvd : size ∣ t - k := (Nat.modEq_iff_dvd' hk.le).mp h
  have := Nat.le_of_dvd (by omega) hdvd
  omega

/-- The delay-line state keeps its buffer size. -/
theorem delayState_size (size : Nat) (u : Nat → ℚ) (t : Nat) :
    (delayState size u t).size = size := by
  induction t with
  | zero => rfl
  | succ t ih => simpa [delayState, DelayLine.tick] using ih

/-- After `t` ticks the write cursor sits at `t % size`. -/
theorem delayState_widx (size : Nat) (u : Nat → ℚ) (t : Nat) :
    (delayState size u t).widx = t % size := by
  induction t with
  | zero => rfl
  | succ t ih =>
    simp only [delayState, DelayLine.tick, ih, delayState_size]
    exact Nat.mod_add_mod t size 1

/-- Slot `k % size` holds input sample `k` as long as no more than `size`
further samples have been written since. -/
theorem delayState_buf_recent (size : Nat) (u : Nat → ℚ) (t k : Nat)
    (hk : k < t) (hks : t ≤ k + size) :
    (delayState size u t).buf (k % size) = u k := by
  induction t with
  | zero => omega
  | succ t ih =>
    simp only [delayState, DelayLine.tick, delayState_widx]
    rcases Nat.lt_or_ge k t with hlt | hge
    · have hne : k % size ≠ t % size := mod_ne_of_lt_of_sub_lt size k t hlt (by omega)
      simp only [hne, if_false]
      exact ih hlt (by omega)
    · have hkt : k = t := by omega
      subst hkt
      simp

/-- Slots not yet written (index at least `t`, below `size`) still hold the
reset value `0`. -/
theorem delayState_buf_zero (size : Nat) (u : Nat → ℚ) (t j : Nat)
    (hj1 : t ≤ j) (hj2 : j < size) :
    (delayState size u t).buf j = 0 := by
  induction t with
  | zero => rfl
  | succ t ih =>
    simp only [delayState, DelayLine.tick, delayState_widx]
    have hne : j ≠ t % size := by
      rw [Nat.mod_eq_of_lt (by omega : t < size)]
      omega
    simp only [hne, if_false]
    exact ih (by omega)

/-- Characterisation of the delay line: reading at constant offset `D`
(with `D` inside the buffer) yields the input stream delayed by exactly
`D` samples, with `0` (the reset value) during the first `D` ticks. -/
theorem delayOut_eq (size D : Nat) (hD : D < size) (u : Nat → ℚ) (t : Nat) :
    delayOut size D u t = if t < D then 0 else u (t - D) := by
  have hS : 0 < size := by omega
  simp only [delayOut, DelayLine.tick, delayState_widx, delayState_size,
    Nat.mod_add_mod]
  rcases Nat.lt_or_ge t D with hlt | hge
  · have hρlt : t + (size - D) < size := by omega
    rw [Nat.mod_eq_of_lt hρlt]
    rw [if_neg (show ¬ t + (size - D) = t % size by
      rw [Nat.mod_eq_of_lt (show t < size by omega)]; omega)]
    rw [if_pos hlt]
    exact delayState_buf_zero size u t (t + (size - D)) (by omega) hρlt
  · have hρ : t + (size - D) = (t - D) + size := by omega
    rw [hρ, Nat.add_mod_right, if_neg (show ¬ t < D by omega)]
    rcases Nat.eq_zero_or_pos D with hD0 | hDpos
    · subst hD0
      simp
    · have hne : (t - D) % size ≠ t % size :=
        mod_ne_of_lt_of_sub_lt size (t - D) t (by omega) (by omega)
      rw [if_neg hne]
      exact delayState_buf_recent size u t (t - D) (by omega) (by omega)

/-! ## Oscillator phase bounds -/

/-- The phase range `[0, 1)` is preserved by any number of ticks. -/
theorem oscState_phase_mem (o : Oscillator) (h0 : 0 ≤ o.phase ∧ o.phase < 1)
    (t : Nat) : 0 ≤ (oscState o t).phase ∧ (oscState o t).phase < 1 := by
  induction t with
  | zero => exact h0
  | succ t _ =>
    constructor
    · exact Int.fract_nonneg _
    · exact Int.fract_lt_one _

/-- The phase range `[0, 1)` is preserved by any sequence of
`process_block` calls. -/
theorem processBlocksState_phase_mem (o : Oscillator)
    (h0 : 0 ≤ o.phase ∧ o.phase < 1) (ns : List Nat) :
    0 ≤ (o.processBlocksState ns).phase ∧ (o.processBlocksState ns).phase < 1 := by
  induction ns generalizing o with
  | nil => exact h0
  | cons n ns ih => exact ih _ (oscState_phase_mem o h0 n)

/-- Every sample the oscillator emits lies in the canonical range
`[-1, 1]`, since the phase stays in `[0, 1)`. -/
theorem oscOut_mem (o : Oscillator) (h0 : 0 ≤ o.phase ∧ o.phase < 1) (t : Nat) :
    -1 ≤ oscOut o t ∧ oscOut o t ≤ 1 := by
  have h := oscState_phase_mem o h0 t
  simp only [oscOut, Oscillator.tick, waveform]
  constructor
  · nlinarith [h.1]
  · nlinarith [h.2]

/-- Gain `1` composed with the range clamp is the identity on samples that
are already in the canonical range. -/
theorem outputGain_one_eq (x : ℚ) (h1 : -1 ≤ x) (h2 : x ≤ 1) :
    outputGain 1 x = x := by
  simp only [outputGain, one_mul]
  rw [max_eq_right h1, min_eq_right h2]

/-- `set` preserves well-formedness of the store. -/
theorem ParamStore.set_WF (st : ParamStore) (hw : st.WF) (name : String) (v : ℚ) :
    (st.set name v).WF := by
  rcases hw with ⟨h0, h1⟩
  unfold ParamStore.set ParamStore.WF
  by_cases hn : name = "delay"
  · simp only [hn, if_pos rfl]
    constructor
    · exact le_min (le_trans h0 h1) (le_max_left 0 v)
    · exact min_le_left _ _
  · simp only [hn, if_false]
    exact ⟨h0, h1⟩

/-! ## Claim theorems -/

/-- C1: the claim states that every delay-slider interaction while a
playback handle is active delivers a `("delay", value)` parameter-change
signal into the Parameter Store.  The handler embedded from
`src/index.js` lines 14–19 refutes this: with a non-null handle it
issues no call at all — its body is only the `TODO` stub — so the state
is unchanged and the emitted call list is empty. -/
theorem C1_delay_handler_emits_no_signal (s : UIState) (v : ℚ) :
    onDelayChange s v = (s, []) := by
  rcases s with ⟨h, n⟩
  cases h <;> rfl

/-- C2: `free()` destroys a handle exactly once — an `Active` handle
transitions to `Freed` and its callback registration is dropped; any
further call on the freed handle (a second `free()`, a parameter change)
is a no-op, and as total functions these operations cannot panic; and in
the UI a second stop click finds the stored handle null and does
nothing. -/
theorem C2_free_exactly_once_then_noop (cfg : GraphConfig) (h : Handle)
    (s : UIState) (name : String) (v : ℚ) :
    (Handle.create cfg).hstate = HandleState.Active ∧
    ((Handle.create cfg).free).hstate = HandleState.Freed ∧
    ((Handle.create cfg).free).registered = false ∧
    h.free.free = h.free ∧
    (h.free).setParam name v = h.free ∧
    onStopClick (onStopClick s).1 = ((onStopClick s).1, []) := by
  refine ⟨rfl, rfl, rfl, ?_, ?_, ?_⟩
  · rcases h with ⟨c, hs, r, p⟩
    cases hs <;> rfl
  · rcases h with ⟨c, hs, r, p⟩
    cases hs <;> rfl
  · rcases s with ⟨hh, n⟩
    cases hh <;> rfl

/-- C4: a delay offset of `0` makes the Delay stage the identity: for
every input stream and every tick, the output sample equals the input
sample of the same tick. -/
theorem C4_zero_delay_identity (size : Nat) (hS : 0 < size) (u : Nat → ℚ)
    (t : Nat) : delayOut size 0 u t = u t := by
  rw [delayOut_eq size 0 hS u t]
  simp

/-- Witness for C4 at a concrete buffer size, stream and tick. -/
theorem C4_zero_delay_identity_witness :
    0 < 4 ∧ delayOut 4 0 (fun _ => (3 : ℚ)) 2 = 3 :=
  ⟨by decide, C4_zero_delay_identity 4 (by decide) (fun _ => (3 : ℚ)) 2⟩

/-- C5: `set` never rejects (it is a total function into the store type)
and clamps out-of-range values to the nearest boundary: a negative delay
reads back as `0`, a delay above the maximum reads back as the maximum,
an in-range delay reads back unchanged; and after any sequence of `set`
calls the stored value remains inside the valid range, so no `get`
observes an unclamped value. -/
theorem C5_set_clamps (st : ParamStore) (hmax : 0 ≤ st.maxDelaySeconds) (v : ℚ) :
    (0 ≤ (st.set "delay" v).delaySeconds ∧
      (st.set "delay" v).delaySeconds ≤ st.maxDelaySeconds) ∧
    (v < 0 → (st.set "delay" v).get "delay" = 0) ∧
    (st.maxDelaySeconds < v → (st.set "delay" v).get "delay" = st.maxDelaySeconds) ∧
    (0 ≤ v → v ≤ st.maxDelaySeconds → (st.set "delay" v).get "delay" = v) ∧
    (∀ ops : List (String × ℚ), st.WF →
      (ops.foldl (fun s2 p => s2.set p.1 p.2) st).WF) := by
  have hset : ∀ w : ℚ, (st.set "delay" w).delaySeconds =
      min st.maxDelaySeconds (max 0 w) := by
    intro w
    simp [ParamStore.set]
  have hget : ∀ st2 : ParamStore, st2.get "delay" = st2.delaySeconds := by
    intro st2
    simp [ParamStore.get]
  have hkeep : (st.set "delay" v).maxDelaySeconds = st.maxDelaySeconds := by
    simp [ParamStore.set]
  refine ⟨⟨?_, ?_⟩, ?_, ?_, ?_, ?_⟩
  · rw [hset]
    exact le_min hmax (le_max_left 0 v)
  · rw [hset]
    exact min_le_left _ _
  · intro hv
    rw [hget, hset, max_eq_left hv.le, min_eq_right hmax]
  · intro hv
    rw [hget, hset, max_eq_right (le_of_lt (lt_of_le_of_lt hmax hv)), min_eq_left hv.le]
  · intro h0 h1
    rw [hget, hset, max_eq_right h0, min_eq_right h1]
  · intro ops
    clear hset hget hkeep hmax
    induction ops generalizing st with
    | nil => exact fun hw => hw
    | cons p ps ih =>
      exact fun hw => ih _ (ParamStore.set_WF st hw p.1 p.2)

/-- Witness for C5 at a concrete store (range `[0, 1]`) and a concrete
out-of-range value `5`. -/
theorem C5_set_clamps_witness :
    (0 : ℚ) ≤ (ParamStore.mk 1 0).maxDelaySeconds ∧
    ((0 ≤ ((ParamStore.mk 1 0).set "delay" 5).delaySeconds ∧
      ((ParamStore.mk 1 0).set "delay" 5).delaySeconds ≤
        (ParamStore.mk 1 0).maxDelaySeconds) ∧
    ((5 : ℚ) < 0 → ((ParamStore.mk 1 0).set "delay" 5).get "delay" = 0) ∧
    ((ParamStore.mk 1 0).maxDelaySeconds < 5 →
      ((ParamStore.mk 1 0).set "delay" 5).get "delay" =
        (ParamStore.mk 1 0).maxDelaySeconds) ∧
    ((0 : ℚ) ≤ 5 → (5 : ℚ) ≤ (ParamStore.mk 1 0).maxDelaySeconds →
      ((ParamStore.mk 1 0).set "delay" 5).get "delay" = 5) ∧
    (∀ ops : List (String × ℚ), (ParamStore.mk 1 0).WF →
      (ops.foldl (fun s2 p => s2.set p.1 p.2) (ParamStore.mk 1 0)).WF)) :=
  ⟨by norm_num, C5_set_clamps (ParamStore.mk 1 0) (by norm_num) 5⟩

/-- C6: from the reset state, for every frequency and sample rate and
every finite sequence of `process_block` calls of any block sizes, the
oscillator's phase accumulator stays in its bounded range `[0, 1)` — it
wraps modulo one period each tick and never drifts unboundedly. -/
theorem C6_phase_bounded (freq sampleRate : ℚ) (ns : List Nat) :
    0 ≤ ((Oscillator.reset freq sampleRate).processBlocksState ns).phase ∧
    ((Oscillator.reset freq sampleRate).processBlocksState ns).phase < 1 :=
  processBlocksState_phase_mem _ (by constructor <;> norm_num [Oscillator.reset]) ns

/-- C7: the per-handle lifecycle admits exactly the three transitions
`Idle → Running` on `play()`, `Running → Stopping` on `free()` and
`Stopping → Idle` on the sink's deregistration confirmation — each of
them is the only transition out of its source state and no other
transition exists. -/
theorem C7_lifecycle_transitions (s s2 : EngineState) (e : EngineEvent) :
    engineStep s e = some s2 ↔
      (s = EngineState.Idle ∧ e = EngineEvent.playEv ∧ s2 = EngineState.Running) ∨
      (s = EngineState.Running ∧ e = EngineEvent.freeEv ∧ s2 = EngineState.Stopping) ∨
      (s = EngineState.Stopping ∧ e = EngineEvent.sinkConfirm ∧ s2 = EngineState.Idle) := by
  cases s <;> cases e <;> cases s2 <;> decide

/-- C9: the play-button handler overwrites the stored handle variable
with the freshly created handle and increments the id supply; the only
call it issues is `play()` — in particular it never calls `free()`, so a
previously stored handle is orphaned, not torn down. -/
theorem C9_play_overwrites_without_free (s : UIState) :
    (onPlayClick s).1.handle = some s.nextId ∧
    (onPlayClick s).1.nextId = s.nextId + 1 ∧
    (onPlayClick s).2 = [EngineCall.play s.nextId] ∧
    ∀ id, EngineCall.free id ∉ (onPlayClick s).2 := by
  refine ⟨rfl, rfl, rfl, fun id => ?_⟩
  simp [onPlayClick]

/-- C8: two `play()` calls return distinct handle ids, and the sessions
share no mutable state: a parameter change addressed at either handle
leaves the other handle's output stream unchanged, in both directions. -/
theorem C8_two_handles_noninterference (sys : System) (cfg1 cfg2 : GraphConfig)
    (name : String) (v : ℚ) (t : Nat) :
    (sys.play cfg1).1 ≠ ((sys.play cfg1).2.play cfg2).1 ∧
    (((sys.play cfg1).2.play cfg2).2.setParam (sys.play cfg1).1 name v).outputAt
        ((sys.play cfg1).2.play cfg2).1 t =
      ((sys.play cfg1).2.play cfg2).2.outputAt ((sys.play cfg1).2.play cfg2).1 t ∧
    (((sys.play cfg1).2.play cfg2).2.setParam ((sys.play cfg1).2.play cfg2).1 name v).outputAt
        (sys.play cfg1).1 t =
      ((sys.play cfg1).2.play cfg2).2.outputAt (sys.play cfg1).1 t := by
  refine ⟨?_, ?_, ?_⟩
  · simp only [System.play]
    omega
  · simp only [System.play, System.setParam, System.outputAt]
    rw [if_neg (by omega : ¬ sys.nextId + 1 = sys.nextId)]
  · simp only [System.play, System.setParam, System.outputAt]
    rw [if_neg (by omega : ¬ sys.nextId = sys.nextId + 1)]

/-- C3: in the §8 end-to-end run (sample rate 44100, block size 512,
`delay_seconds = 0.5`), every sample of every output block from block `N`
on, where `N · 512 ≥ 22050`, equals the Delay stage's input signal
delayed by exactly `22050` samples (the hard-switch read policy is
exact, within the claim's ±1 allowance). -/
theorem C3_end_to_end_delay (N b i : Nat) (hN : 22050 ≤ N * 512) (hb : N ≤ b)
    (hi : i < 512) :
    e2eBlockSample b i = e2eDelayIn (b * 512 + i - 22050) := by
  have hmul : N * 512 ≤ b * 512 := Nat.mul_le_mul_right 512 hb
  have hds : e2eHandle.delaySamples = 22050 := by
    have h1 : e2eHandle.params.delaySeconds = 1 / 2 := by
      simp [e2eHandle, Handle.setParam, Handle.create, ParamStore.set, e2eConfig]
      norm_num
    simp only [Handle.delaySamples, h1]
    norm_num [e2eHandle, Handle.setParam, Handle.create, e2eConfig]
    rfl
  have hbs : e2eHandle.cfg.bufSize = 44101 := by
    show (⌊(1 : ℚ) * ((44100 : Nat) : ℚ)⌋).toNat + 1 = 44101
    norm_num
    rfl
  have hcfg : e2eHandle.cfg = e2eConfig := rfl
  have ht : 22050 ≤ b * 512 + i := by omega
  unfold e2eBlockSample Handle.outAt
  rw [hds, hbs, hcfg]
  rw [delayOut_eq 44101 22050 (by norm_num) _ _, if_neg (by omega)]
  have hosc := oscOut_mem (Oscillator.reset 440 ((44100 : Nat) : ℚ))
    (by constructor <;> norm_num [Oscillator.reset]) (b * 512 + i - 22050)
  show outputGain 1
      (oscOut (Oscillator.reset 440 ((44100 : Nat) : ℚ)) (b * 512 + i - 22050)) = _
  rw [outputGain_one_eq _ hosc.1 hosc.2]
  rfl

/-- Witness for C3 at block `44` (the first block index `N` with
`N · 512 = 22528 ≥ 22050`), sample `0`. -/
theorem C3_end_to_end_delay_witness :
    22050 ≤ 44 * 512 ∧ 44 ≤ 44 ∧ 0 < 512 ∧
    e2eBlockSample 44 0 = e2eDelayIn (44 * 512 + 0 - 22050) :=
  ⟨by decide, by decide, by decide,
    C3_end_to_end_delay 44 44 0 (by decide) (by decide) (by decide)⟩

/-- A list of length six is an explicit six-element list. -/
theorem list_len6 {α : Type} (l : List α) (h : l.length = 6) :
    ∃ a b c d e f, l = [a, b, c, d, e, f] := by
  rcases l with _ | ⟨a, _ | ⟨b, _ | ⟨c, _ | ⟨d, _ | ⟨e, _ | ⟨f, _ | ⟨g, r⟩⟩⟩⟩⟩⟩⟩ <;>
    simp only [List.length_cons, List.length_nil] at h <;>
    first
    | omega
    | exact ⟨a, b, c, d, e, f, rfl⟩

/-- C10: for every interleaving of the three atomic sub-steps of one
control-context `set(v)` (write low word, write high word, flip the
publish flag) with the three atomic sub-steps of one audio-context `get`
(latch the flag, read low word, read high word), the read returns exactly
the value that was committed at the instant the reader latched the flag —
the old value `v0` or the new value `v`, never a torn mixture of their
words — and both sides run to completion unconditionally (every sub-step
is always enabled, so neither side blocks the other). -/
theorem C10_lock_free_handoff (v0 v : Nat) (il : List Bool)
    (h6 : il.length = 6) (h3 : il.count true = 3) :
    (handoffFinal v0 v il).res = (handoffFinal v0 v il).latched ∧
    ((handoffFinal v0 v il).res = some v0 ∨ (handoffFinal v0 v il).res = some v) ∧
    (handoffFinal v0 v il).wpc = 3 ∧ (handoffFinal v0 v il).rpc = 3 := by
  obtain ⟨a, b, c, d, e, f, rfl⟩ := list_len6 il h6
  cases a <;> cases b <;> cases c <;> cases d <;> cases e <;> cases f <;>
    first
    | exact absurd h3 (by decide)
    | (refine ⟨?_, ?_, ?_, ?_⟩ <;>
        simp [handoffFinal, handoffExec, writerStep, readerStep, handoffInit,
          Slot.committed, decodeWords, wordsOf, Nat.mod_add_div])

/-- Witness for C10 at concrete values and the fully sequential
interleaving (the whole `set` first, then the whole `get`). -/
theorem C10_lock_free_handoff_witness :
    ([true, true, true, false, false, false] : List Bool).length = 6 ∧
    ([true, true, true, false, false, false] : List Bool).count true = 3 ∧
    ((handoffFinal 5 9 [true, true, true, false, false, false]).res =
        (handoffFinal 5 9 [true, true, true, false, false, false]).latched ∧
      ((handoffFinal 5 9 [true, true, true, false, false, false]).res = some 5 ∨
        (handoffFinal 5 9 [true, true, true, false, false, false]).res = some 9) ∧
      (handoffFinal 5 9 [true, true, true, false, false, false]).wpc = 3 ∧
      (handoffFinal 5 9 [true, true, true, false, false, false]).rpc = 3) :=
  ⟨by decide, by decide,
    C10_lock_free_handoff 5 9 [true, true, true, false, false, false]
      (by decide) (by decide)⟩

end ASE2024
